import Mathlib

/-!
Shallow embedding of the nextjs-to-openapi route-to-specification pipeline.

The embedding covers, from the repository's Go sources:
  * `cleanMarkdownJSON`, `parseResponse` (reply sanitizer / parser);
  * `sendRequest` (generation client, HTTP exchange abstracted);
  * `ScanRoutes` / `isRouteFile` (route discoverer, filesystem abstracted
    as a tree);
  * `buildOpenAPISpec` (specification assembler, cmd/main.go).

Strings are modelled at the level of their character lists; since the only
characters the code searches for are ASCII, byte indices and character
indices into UTF-8 text always agree at every index the code uses, so the
character-level model is faithful to Go's byte-level slicing.
-/

/-- The opening-brace character, `'\x7b'`. -/
def lbrace : Char := '\x7b'

/-- The closing-brace character, `'\x7d'`. -/
def rbrace : Char := '\x7d'

/-- Go's `unicode.IsSpace`: '\t', '\n', '\v', '\f', '\r', ' ', U+0085, U+00A0,
and the Unicode White_Space code points above Latin-1 (U+1680, U+2000–U+200A,
U+2028, U+2029, U+202F, U+205F, U+3000). This list is the complete set of
code points for which Go's `unicode.IsSpace` returns true. -/
def goIsSpace (c : Char) : Bool :=
  c = ' ' || c = '\t' || c = '\n' || c.toNat = 11 || c.toNat = 12 || c = '\r' ||
  c.toNat = 0x85 || c.toNat = 0xA0 || c.toNat = 0x1680 ||
  (0x2000 ≤ c.toNat && c.toNat ≤ 0x200A) ||
  c.toNat = 0x2028 || c.toNat = 0x2029 || c.toNat = 0x202F || c.toNat = 0x205F ||
  c.toNat = 0x3000

/-- Go's `strings.TrimSpace`: drop leading and trailing `unicode.IsSpace`
characters. -/
def goTrimSpace (cs : List Char) : List Char :=
  ((cs.dropWhile goIsSpace).reverse.dropWhile goIsSpace).reverse

/-- The fence marker string removed by `cleanMarkdownJSON`:
three backticks followed by `JSON` (case-sensitive, as in the Go source). -/
def fenceMarker : List Char := ['\x60', '\x60', '\x60', 'J', 'S', 'O', 'N']

/-- Go's `strings.ReplaceAll response "(fence)JSON" ""`: remove every
(non-overlapping, left-to-right) occurrence of the fence marker; scanning
resumes after a removed occurrence. The marker is spelled out as the
character pattern `'\x60' '\x60' '\x60' 'J' 'S' 'O' 'N'` (`fenceMarker`). -/
def stripFence : List Char → List Char
  | '\x60' :: '\x60' :: '\x60' :: 'J' :: 'S' :: 'O' :: 'N' :: tail => stripFence tail
  | c :: rest => c :: stripFence rest
  | [] => []

/-- Go's `strings.Index` specialised to a one-character pattern: the index of
the first occurrence of `c`, or `-1` when absent. -/
def goIndexChar : List Char → Char → Int
  | [], _ => -1
  | x :: rest, c =>
    if x = c then 0
    else
      let r := goIndexChar rest c
      if r = -1 then -1 else r + 1

/-- Go's `strings.LastIndex` specialised to a one-character pattern: the index
of the last occurrence of `c`, or `-1` when absent. -/
def goLastIndexChar (cs : List Char) (c : Char) : Int :=
  let r := goIndexChar cs.reverse c
  if r = -1 then -1 else (cs.length : Int) - 1 - r

/-- `cleanMarkdownJSON` from `internal/scanner/scanner.go`: remove the
fence marker everywhere, trim surrounding whitespace, then, when a first
opening brace and a last closing brace both exist with the closing one
strictly later, slice to the span from the former through the latter
inclusive (`response[start : end+1]`); otherwise return the text unchanged. -/
def cleanMarkdownJSON (response : String) : String :=
  let r1 := stripFence response.data
  let r2 := goTrimSpace r1
  let start := goIndexChar r2 lbrace
  let stop := goLastIndexChar r2 rbrace
  if start ≠ -1 ∧ stop ≠ -1 ∧ stop > start then
    String.mk ((r2.drop start.toNat).take (stop.toNat + 1 - start.toNat))
  else String.mk r2

/-! ## JSON values and Go `encoding/json` decoding

The Go code decodes replies with `json.Unmarshal` (and the HTTP envelope
with `json.Decoder.Decode`). These model that standard-library collaborator:
a JSON syntax tree, a fuel-indexed parser for RFC 8259 JSON as Go's scanner
accepts it, and the unmarshalling rules Go documents for the concrete target
types used here (string, bool, struct, map, slice): a JSON `null` is a
no-op for any of them except a slice, which it sets to nil; unknown object
keys are ignored; object keys match struct fields case-insensitively. -/

/-- JSON whitespace (RFC 8259): space, tab, newline, carriage return. -/
def jsonWs (c : Char) : Bool :=
  c = ' ' || c = '\t' || c = '\n' || c = '\r'

/-- Skip leading JSON whitespace. -/
def skipJsonWs (cs : List Char) : List Char := cs.dropWhile jsonWs

/-- A parsed JSON document. Numbers keep their lexeme: the code under
verification never reads a numeric value. -/
inductive JValue where
  | null
  | boolean (b : Bool)
  | number (lexeme : String)
  | str (s : String)
  | arr (elems : List JValue)
  | obj (fields : List (String × JValue))
deriving Repr

/-- The Unicode replacement character, produced for unpaired surrogates. -/
def replacementChar : Char := '�'

/-- Value of one hex digit. -/
def hexVal (c : Char) : Option Nat :=
  if '0' ≤ c ∧ c ≤ '9' then some (c.toNat - 48)
  else if 'a' ≤ c ∧ c ≤ 'f' then some (c.toNat - 87)
  else if 'A' ≤ c ∧ c ≤ 'F' then some (c.toNat - 55)
  else none

/-- Four hex digits, as in a `\uXXXX` escape. -/
def parseHex4 : List Char → Option (Nat × List Char)
  | a :: b :: c :: d :: rest =>
    match hexVal a, hexVal b, hexVal c, hexVal d with
    | some x, some y, some z, some w => some (((x * 16 + y) * 16 + z) * 16 + w, rest)
    | _, _, _, _ => none
  | _ => none

/-- The character denoted by a one-letter escape after a backslash. -/
def escChar (e : Char) : Option Char :=
  if e = '"' then some '"'
  else if e = '\\' then some '\\'
  else if e = '/' then some '/'
  else if e = 'b' then some '\x08'
  else if e = 'f' then some '\x0c'
  else if e = 'n' then some '\n'
  else if e = 'r' then some '\r'
  else if e = 't' then some '\t'
  else none

/-- Body of a JSON string literal, after the opening quote: decoded
characters and the rest of the input after the closing quote. Surrogate
pairs in `\u` escapes combine; an unpaired surrogate becomes U+FFFD, as in
Go's unquoting. -/
def parseStrChars : Nat → List Char → Option (List Char × List Char)
  | 0, _ => none
  | fuel + 1, cs =>
    match cs with
    | [] => none
    | c :: rest =>
      if c = '"' then some ([], rest)
      else if c = '\\' then
        match rest with
        | [] => none
        | e :: rest2 =>
          if e = 'u' then
            match parseHex4 rest2 with
            | none => none
            | some (n, r3) =>
              if 0xD800 ≤ n ∧ n ≤ 0xDBFF then
                match r3 with
                | '\\' :: 'u' :: r4 =>
                  match parseHex4 r4 with
                  | some (n2, r5) =>
                    if 0xDC00 ≤ n2 ∧ n2 ≤ 0xDFFF then
                      (parseStrChars fuel r5).map (fun p =>
                        (Char.ofNat (0x10000 + (n - 0xD800) * 0x400 + (n2 - 0xDC00)) :: p.1, p.2))
                    else (parseStrChars fuel r3).map (fun p => (replacementChar :: p.1, p.2))
                  | none => (parseStrChars fuel r3).map (fun p => (replacementChar :: p.1, p.2))
                | _ => (parseStrChars fuel r3).map (fun p => (replacementChar :: p.1, p.2))
              else if 0xDC00 ≤ n ∧ n ≤ 0xDFFF then
                (parseStrChars fuel r3).map (fun p => (replacementChar :: p.1, p.2))
              else (parseStrChars fuel r3).map (fun p => (Char.ofNat n :: p.1, p.2))
          else
            match escChar e with
            | none => none
            | some d => (parseStrChars fuel rest2).map (fun p => (d :: p.1, p.2))
      else if c.toNat < 0x20 then none
      else (parseStrChars fuel rest).map (fun p => (c :: p.1, p.2))

/-- Exponent part of a JSON number (optional); `acc` is the lexeme so far. -/
def numExp (acc : List Char) (cs : List Char) : Option (JValue × List Char) :=
  match cs with
  | e :: rest =>
    if e = 'e' ∨ e = 'E' then
      let signAndRest : List Char × List Char :=
        match rest with
        | s :: r => if s = '+' ∨ s = '-' then ([s], r) else ([], s :: r)
        | [] => ([], [])
      let ds := signAndRest.2.takeWhile Char.isDigit
      let r2 := signAndRest.2.dropWhile Char.isDigit
      if ds.isEmpty then none
      else some (.number (String.mk (acc ++ e :: (signAndRest.1 ++ ds))), r2)
    else some (.number (String.mk acc), e :: rest)
  | [] => some (.number (String.mk acc), [])

/-- Fraction part of a JSON number (optional), then the exponent part. -/
def numFrac (acc : List Char) (cs : List Char) : Option (JValue × List Char) :=
  match cs with
  | c :: rest =>
    if c = '.' then
      let ds := rest.takeWhile Char.isDigit
      let r2 := rest.dropWhile Char.isDigit
      if ds.isEmpty then none else numExp (acc ++ c :: ds) r2
    else numExp acc (c :: rest)
  | [] => numExp acc []

/-- A JSON number per the RFC 8259 grammar
`-? (0 | [1-9][0-9]*) frac? exp?`; the lexeme is kept, not interpreted. -/
def parseNumber (cs : List Char) : Option (JValue × List Char) :=
  let negAndRest : List Char × List Char :=
    match cs with
    | c :: rest => if c = '-' then (['-'], rest) else ([], c :: rest)
    | [] => ([], [])
  match negAndRest.2 with
  | [] => none
  | c :: rest =>
    if c = '0' then numFrac (negAndRest.1 ++ ['0']) rest
    else if c.isDigit then
      let ds := rest.takeWhile Char.isDigit
      let r2 := rest.dropWhile Char.isDigit
      numFrac (negAndRest.1 ++ c :: ds) r2
    else none

mutual

/-- One JSON value: leading whitespace skipped, then dispatch on the first
character as Go's scanner does. -/
def parseValue : Nat → List Char → Option (JValue × List Char)
  | 0, _ => none
  | fuel + 1, cs =>
    match skipJsonWs cs with
    | [] => none
    | c :: rest =>
      if c = lbrace then
        match skipJsonWs rest with
        | c2 :: r2 =>
          if c2 = rbrace then some (.obj [], r2)
          else
            match parsePairs fuel (c2 :: r2) with
            | some (fields, r3) => some (.obj fields, r3)
            | none => none
        | [] => none
      else if c = '[' then
        match skipJsonWs rest with
        | c2 :: r2 =>
          if c2 = ']' then some (.arr [], r2)
          else
            match parseElems fuel (c2 :: r2) with
            | some (elems, r3) => some (.arr elems, r3)
            | none => none
        | [] => none
      else if c = '"' then
        match parseStrChars (rest.length + 1) rest with
        | some (chars, r) => some (.str (String.mk chars), r)
        | none => none
      else if c = 't' then
        if ['r', 'u', 'e'].isPrefixOf rest then some (.boolean true, rest.drop 3) else none
      else if c = 'f' then
        if ['a', 'l', 's', 'e'].isPrefixOf rest then some (.boolean false, rest.drop 4) else none
      else if c = 'n' then
        if ['u', 'l', 'l'].isPrefixOf rest then some (.null, rest.drop 3) else none
      else if c = '-' ∨ c.isDigit then parseNumber (c :: rest)
      else none

/-- One or more `"key": value` members, separated by commas, up to the
closing brace (the empty-object case is handled before the first call). -/
def parsePairs : Nat → List Char → Option (List (String × JValue) × List Char)
  | 0, _ => none
  | fuel + 1, cs =>
    match skipJsonWs cs with
    | [] => none
    | c :: rest =>
      if c = '"' then
        match parseStrChars (rest.length + 1) rest with
        | none => none
        | some (kchars, r1) =>
          match skipJsonWs r1 with
          | ':' :: r2 =>
            match parseValue fuel r2 with
            | none => none
            | some (v, r3) =>
              match skipJsonWs r3 with
              | c2 :: r4 =>
                if c2 = ',' then
                  match parsePairs fuel r4 with
                  | some (more, r5) => some ((String.mk kchars, v) :: more, r5)
                  | none => none
                else if c2 = rbrace then some ([(String.mk kchars, v)], r4)
                else none
              | [] => none
          | _ => none
      else none

/-- One or more array elements, separated by commas, up to the closing
bracket (the empty-array case is handled before the first call). -/
def parseElems : Nat → List Char → Option (List JValue × List Char)
  | 0, _ => none
  | fuel + 1, cs =>
    match parseValue fuel cs with
    | none => none
    | some (v, r1) =>
      match skipJsonWs r1 with
      | c :: r2 =>
        if c = ',' then
          match parseElems fuel r2 with
          | some (more, r3) => some (v :: more, r3)
          | none => none
        else if c = ']' then some ([v], r2)
        else none
      | [] => none

end

/-! ## The per-route record types (internal/scanner/scanner.go, ollama package)

Field names follow the Go structs; the Go field `Type` (JSON key `"type"`)
is written `Ty` because `Type` is reserved in Lean. A Go `map[string]T` is
modelled as an association list in key-arrival order with assignment
semantics (`mapInsert`): later assignments to an existing key replace its
value in place. -/

/-- Assignment `m[k] = v` on a Go map, modelled on an association list:
replace the value of an existing key, otherwise append the new key. -/
def mapInsert {β : Type} : List (String × β) → String → β → List (String × β)
  | [], k, v => [(k, v)]
  | (k0, v0) :: rest, k, v =>
    if k0 = k then (k, v) :: rest else (k0, v0) :: mapInsert rest k v

/-- Lookup `m[k]` on a Go map modelled as an association list. -/
def mapLookup {β : Type} : List (String × β) → String → Option β
  | [], _ => none
  | (k0, v0) :: rest, k => if k0 = k then some v0 else mapLookup rest k

/-- `Parameter` from the ollama package: `{Name, Type, In, Required}` with
JSON keys `name`, `type`, `in`, `required`. -/
structure Parameter where
  Name : String
  Ty : String
  In : String
  Required : Bool
deriving DecidableEq, Repr

/-- `Method` from the ollama package: `{Summary, Description, Parameters}`
with JSON keys `summary`, `description`, `parameters`. -/
structure Method where
  Summary : String
  Description : String
  Parameters : List Parameter
deriving DecidableEq, Repr

/-- `RouteDocumentation` from the ollama package: `{Path, Methods,
Description}` with JSON keys `path`, `methods`, `description`. -/
structure RouteDocumentation where
  Path : String
  Methods : List (String × Method)
  Description : String
deriving DecidableEq, Repr

/-- `OllamaResponse`, the generation service's reply envelope:
`{Response, Done}` with JSON keys `response`, `done`. -/
structure OllamaResponse where
  Response : String
  Done : Bool
deriving DecidableEq, Repr

/-- The zero value of `Parameter`. -/
def zeroParameter : Parameter := ⟨"", "", "", false⟩

/-- The zero value of `Method`. -/
def zeroMethod : Method := ⟨"", "", []⟩

/-- The zero value of `RouteDocumentation` (a nil `Methods` map is the
empty association list). -/
def zeroRouteDoc : RouteDocumentation := ⟨"", [], ""⟩

/-- The zero value of `OllamaResponse`. -/
def zeroOllamaResponse : OllamaResponse := ⟨"", false⟩

/-- ASCII lower-casing of one character. -/
def asciiLower (c : Char) : Char :=
  if 'A' ≤ c ∧ c ≤ 'Z' then Char.ofNat (c.toNat + 32) else c

/-- Go's struct-field matching for a JSON object key against a lower-case
field tag: an exact match, or a case-insensitive one (Go uses
`strings.EqualFold`; since every tag here is ASCII, folding the key's
ASCII letters is the behaviour that matters — the few non-ASCII code
points Go additionally folds, such as the Kelvin sign, never match an
ASCII-lowercase tag in a way a claim depends on). -/
def goFieldMatch (key tag : String) : Bool :=
  key == tag || String.mk (key.data.map asciiLower) == tag

/-- Go unmarshalling into a `string` field: a JSON string sets it, `null`
is a no-op, anything else is an `UnmarshalTypeError`. -/
def unmarshalString (v : JValue) (cur : String) : Option String :=
  match v with
  | .null => some cur
  | .str s => some s
  | _ => none

/-- Go unmarshalling into a `bool` field. -/
def unmarshalBool (v : JValue) (cur : Bool) : Option Bool :=
  match v with
  | .null => some cur
  | .boolean b => some b
  | _ => none

/-- Go unmarshalling into a `Parameter` struct: object keys matching a
field set it, unknown keys are ignored, `null` is a no-op. -/
def unmarshalParameter (v : JValue) (cur : Parameter) : Option Parameter :=
  match v with
  | .null => some cur
  | .obj fields =>
    fields.foldlM (fun p kv =>
      if goFieldMatch kv.1 "name" then
        (unmarshalString kv.2 p.Name).map (fun s => { p with Name := s })
      else if goFieldMatch kv.1 "type" then
        (unmarshalString kv.2 p.Ty).map (fun s => { p with Ty := s })
      else if goFieldMatch kv.1 "in" then
        (unmarshalString kv.2 p.In).map (fun s => { p with In := s })
      else if goFieldMatch kv.1 "required" then
        (unmarshalBool kv.2 p.Required).map (fun b => { p with Required := b })
      else some p) cur
  | _ => none

/-- Go unmarshalling into a `[]Parameter` slice: a JSON array decodes each
element into a zero `Parameter`; `null` sets the slice to nil. -/
def unmarshalParamList (v : JValue) : Option (List Parameter) :=
  match v with
  | .null => some []
  | .arr elems => elems.mapM (fun e => unmarshalParameter e zeroParameter)
  | _ => none

/-- Go unmarshalling into a `Method` struct. -/
def unmarshalMethod (v : JValue) (cur : Method) : Option Method :=
  match v with
  | .null => some cur
  | .obj fields =>
    fields.foldlM (fun m kv =>
      if goFieldMatch kv.1 "summary" then
        (unmarshalString kv.2 m.Summary).map (fun s => { m with Summary := s })
      else if goFieldMatch kv.1 "description" then
        (unmarshalString kv.2 m.Description).map (fun s => { m with Description := s })
      else if goFieldMatch kv.1 "parameters" then
        (unmarshalParamList kv.2).map (fun ps => { m with Parameters := ps })
      else some m) cur
  | _ => none

/-- Go unmarshalling into a `map[string]Method`: each object member decodes
its value into a zero `Method` and assigns it at that key; `null` is a
no-op on the map. -/
def unmarshalMethodsMap (v : JValue) (cur : List (String × Method)) :
    Option (List (String × Method)) :=
  match v with
  | .null => some cur
  | .obj fields =>
    fields.foldlM (fun m kv =>
      (unmarshalMethod kv.2 zeroMethod).map (fun meth => mapInsert m kv.1 meth)) cur
  | _ => none

/-- Go unmarshalling into a `RouteDocumentation` struct. At the top level a
JSON `null` succeeds and leaves the target zero-valued, as `encoding/json`
documents. -/
def unmarshalRouteDoc (v : JValue) : Option RouteDocumentation :=
  match v with
  | .null => some zeroRouteDoc
  | .obj fields =>
    fields.foldlM (fun d kv =>
      if goFieldMatch kv.1 "path" then
        (unmarshalString kv.2 d.Path).map (fun s => { d with Path := s })
      else if goFieldMatch kv.1 "methods" then
        (unmarshalMethodsMap kv.2 d.Methods).map (fun ms => { d with Methods := ms })
      else if goFieldMatch kv.1 "description" then
        (unmarshalString kv.2 d.Description).map (fun s => { d with Description := s })
      else some d) zeroRouteDoc
  | _ => none

/-- Go unmarshalling into an `OllamaResponse` struct. -/
def unmarshalOllamaResp (v : JValue) : Option OllamaResponse :=
  match v with
  | .null => some zeroOllamaResponse
  | .obj fields =>
    fields.foldlM (fun d kv =>
      if goFieldMatch kv.1 "response" then
        (unmarshalString kv.2 d.Response).map (fun s => { d with Response := s })
      else if goFieldMatch kv.1 "done" then
        (unmarshalBool kv.2 d.Done).map (fun b => { d with Done := b })
      else some d) zeroOllamaResponse
  | _ => none

/-- Fuel that always suffices for `parseValue` on `cs`: nesting and member
count are each bounded by the input length. -/
def jsonFuel (cs : List Char) : Nat := 2 * cs.length + 4

/-- `json.Unmarshal(data, &doc)` for `doc : RouteDocumentation`: the input
must be one JSON value followed only by whitespace, and it must unmarshal
into the struct. `none` models a non-nil error. -/
def jsonUnmarshalRouteDoc (s : String) : Option RouteDocumentation :=
  match parseValue (jsonFuel s.data) s.data with
  | none => none
  | some (v, rest) =>
    match skipJsonWs rest with
    | [] => unmarshalRouteDoc v
    | _ :: _ => none

/-- `parseResponse` from the ollama client: clean the reply with
`cleanMarkdownJSON`, then `json.Unmarshal` it into a `RouteDocumentation`.
`none` models the `MalformedReply` error return. -/
def parseResponse (response : String) : Option RouteDocumentation :=
  jsonUnmarshalRouteDoc (cleanMarkdownJSON response)

/-- `json.NewDecoder(resp.Body).Decode(&ollamaResp)`: decode one JSON value
from the body (a `Decoder` does not require the input to end there). -/
def jsonDecodeOllamaResp (s : String) : Option OllamaResponse :=
  match parseValue (jsonFuel s.data) s.data with
  | none => none
  | some (v, _) => unmarshalOllamaResp v

/-! ## The generation client's HTTP exchange (sendRequest)

The transport itself is an external collaborator: it either delivers an
HTTP response (status code and body) or fails. Marshalling the request
payload (a struct of two strings and a bool) cannot fail in Go, so that
error branch is unreachable and not modelled. -/

/-- Outcome of `httpClient.Do`: a response, or a transport error (which
includes the client's 30-second timeout). -/
inductive TransportResult where
  | success (statusCode : Nat) (body : String)
  | netError (msg : String)
deriving DecidableEq, Repr

/-- The error cases of `sendRequest`, in the order the code checks them. -/
inductive SendError where
  | httpError (msg : String)
  | statusError (code : Nat)
  | decodeError
deriving DecidableEq, Repr

/-- Equality of `Except` results is decidable when both component types
have decidable equality (used to evaluate `sendRequest` on concrete
inputs). -/
instance {ε α : Type} [DecidableEq ε] [DecidableEq α] : DecidableEq (Except ε α) :=
  fun x y =>
    match x, y with
    | .error a, .error b =>
      match decEq a b with
      | .isTrue h => .isTrue (h ▸ rfl)
      | .isFalse h => .isFalse (fun hh => h (Except.error.inj hh))
    | .ok a, .ok b =>
      match decEq a b with
      | .isTrue h => .isTrue (h ▸ rfl)
      | .isFalse h => .isFalse (fun hh => h (Except.ok.inj hh))
    | .error _, .ok _ => .isFalse (fun hh => Except.noConfusion hh)
    | .ok _, .error _ => .isFalse (fun hh => Except.noConfusion hh)

/-- `sendRequest` from the ollama client: fail on a transport error; fail
with the status code when it is not `http.StatusOK` (200); otherwise decode
the reply envelope and return its `Response` field. -/
def sendRequest (transport : TransportResult) : Except SendError String :=
  match transport with
  | .netError m => .error (.httpError m)
  | .success code body =>
    if code ≠ 200 then .error (.statusError code)
    else
      match jsonDecodeOllamaResp body with
      | none => .error .decodeError
      | some env => .ok env.Response

/-! ## Route discovery (internal/scanner/scanner.go)

The filesystem is modelled as a tree of named nodes; a file carries a
`readable` flag (whether `os.ReadFile` succeeds on it) and its content. A
directory's entry list stands for the listing `filepath.WalkDir` iterates
(WalkDir reads each directory in sorted order; the claims do not depend on
which order the list represents). `filepath.WalkDir` itself is modelled by
the event sequence it hands the callback, threaded through `walkFold` with
Go's early-exit rule: a callback returning a non-nil error aborts the walk
and becomes `WalkDir`'s return value. When `os.Lstat` on the root fails
(for example the root does not exist), `WalkDir` calls the callback exactly
once, with that error, and returns what the callback returns. -/

/-- `isRouteFile` from scanner.go: the regular expression
`^route\.(js|ts|jsx|tsx)$` anchored at both ends matches exactly the four
names `route.js`, `route.ts`, `route.jsx`, `route.tsx`, case-sensitively. -/
def isRouteFile (filename : String) : Bool :=
  filename == "route.js" || filename == "route.ts" ||
  filename == "route.jsx" || filename == "route.tsx"

/-- `strings.TrimPrefix(filepath.Ext(path), ".")`: the suffix of the final
path element after its final dot, without the dot; empty when there is no
dot. -/
def goFileExt (path : String) : String :=
  let rev := path.data.reverse
  let pre := rev.takeWhile (fun c => ¬ (c = '.' ∨ c = '/'))
  match rev.drop pre.length with
  | '.' :: _ => String.mk pre.reverse
  | _ => ""

/-- `APIRoute` from internal/models/types.go. The scanner sets only
`FilePath`, `FileType` and `Content`; the other fields stay zero-valued. -/
structure APIRoute where
  Path : String
  Method : String
  FilePath : String
  FileType : String
  Parameters : List String
  Content : String
deriving DecidableEq, Repr

/-- The `models.APIRoute` literal built in `ScanRoutes` for one readable
route file. -/
def routeOfFile (path content : String) : APIRoute :=
  { Path := "", Method := "", FilePath := path,
    FileType := goFileExt path, Parameters := [], Content := content }

/-- A node of the filesystem tree. -/
inductive FSNode where
  | file (name : String) (readable : Bool) (content : String)
  | dir (name : String) (entries : List FSNode)
deriving Repr

/-- The name of a node, as `DirEntry.Name` reports it. -/
def nodeName : FSNode → String
  | .file name _ _ => name
  | .dir name _ => name

/-- One call of the `filepath.WalkDir` callback: a visited entry (its path,
base name, directory flag and, for a file, the result `os.ReadFile` would
give: `some` content or `none` for a read failure), or a visit made with a
non-nil walk error (failed `Lstat`/`ReadDir`). -/
inductive WalkEvent where
  | ent (path : String) (name : String) (isDir : Bool) (readRes : Option String)
  | failed (path : String)
deriving DecidableEq, Repr

mutual

/-- The callback-visible event sequence `filepath.WalkDir` produces over a
tree rooted at `path`: the node itself, then, for a directory, its entries
below `path/name`. -/
def walkEvents (path : String) (n : FSNode) : List WalkEvent :=
  match n with
  | .file name readable content =>
    [.ent path name false (if readable then some content else none)]
  | .dir name entries => .ent path name true none :: walkEventsList path entries

/-- Events of a directory's entry list, each child rooted at
`dirPath/childName`. -/
def walkEventsList (dirPath : String) (ns : List FSNode) : List WalkEvent :=
  match ns with
  | [] => []
  | n :: rest =>
    walkEvents (dirPath ++ "/" ++ nodeName n) n ++ walkEventsList dirPath rest

end

/-- `filepath.WalkDir`'s threading of the callback over the event sequence:
a callback call returning a non-nil error stops the walk and that error is
returned (the callback under study never uses `SkipDir`/`SkipAll`). -/
def walkFold {σ : Type} (fn : σ → WalkEvent → σ × Option String) :
    σ → List WalkEvent → σ × Option String
  | st, [] => (st, none)
  | st, ev :: rest =>
    match fn st ev with
    | (st2, none) => walkFold fn st2 rest
    | (st2, some e) => (st2, some e)

/-- The closure passed to `filepath.WalkDir` in `ScanRoutes`: on a walk
error or a directory it returns nil; on a file whose name `isRouteFile`
accepts it appends a route when the read succeeds and skips the file when
it fails; it returns nil (no error) on every path. -/
def scanCallback (routes : List APIRoute) (ev : WalkEvent) :
    List APIRoute × Option String :=
  match ev with
  | .failed _ => (routes, none)
  | .ent path name isDir readRes =>
    if isDir then (routes, none)
    else if isRouteFile name then
      match readRes with
      | none => (routes, none)
      | some content => (routes ++ [routeOfFile path content], none)
    else (routes, none)

/-- `ScanRoutes` from scanner.go: walk the root directory with
`scanCallback` and return the collected routes with `WalkDir`'s error.
`root = none` models a root on which `Lstat` fails (it does not exist):
`WalkDir` then makes a single callback call carrying that error. -/
def ScanRoutes (rootDir : String) (root : Option FSNode) :
    List APIRoute × Option String :=
  match root with
  | none => walkFold scanCallback [] [.failed rootDir]
  | some n => walkFold scanCallback [] (walkEvents rootDir n)

/-! ## The specification assembler (buildOpenAPISpec, cmd/main.go)

`buildOpenAPISpec` consumes the per-route results of
`client.DocumentRoute`; that call chains the prompt, the HTTP exchange and
`parseResponse`, and its outcome for each route depends on the external
generation service, so it enters the model as a function from the route to
`Option RouteDocumentation` (`none` = the `err != nil → continue` branch).
The heterogeneous Go maps (`map[string]interface{}`) holding rendered
operations are modelled by typed structures whose fields mirror the JSON
keys the code writes, and map assignment by `mapInsert`. -/

/-- The nested `schema` object of a rendered parameter: `{"type": ...}`. -/
structure ParamSchema where
  type : String
deriving DecidableEq, Repr

/-- The `fixedParam` map built for each parameter:
`{"name", "in", "required", "schema": {"type"}}`. The field `location`
carries the JSON key `"in"` (a reserved word in Lean). -/
structure FixedParam where
  name : String
  location : String
  required : Bool
  schema : ParamSchema
deriving DecidableEq, Repr

/-- `fixedParam` for one parsed parameter, key for key from the Go
literal. -/
def renderParam (p : Parameter) : FixedParam :=
  { name := p.Name, location := p.In, required := p.Required,
    schema := { type := p.Ty } }

/-- The fixed `"200"` response placeholder object. -/
def response200 : JValue :=
  .obj [("description", .str "Successful response"),
        ("content", .obj [("application/json",
          .obj [("schema", .obj [("type", .str "object"),
                                 ("description", .str "Response data")])])])]

/-- The fixed `"400"` response placeholder object. -/
def response400 : JValue :=
  .obj [("description", .str "Bad request"),
        ("content", .obj [("application/json",
          .obj [("schema", .obj [("type", .str "object"),
                ("properties", .obj [("error", .obj [("type", .str "string")])])])])])]

/-- The fixed `"500"` response placeholder object. -/
def response500 : JValue :=
  .obj [("description", .str "Internal server error"),
        ("content", .obj [("application/json",
          .obj [("schema", .obj [("type", .str "object"),
                ("properties", .obj [("error", .obj [("type", .str "string")])])])])])]

/-- The `responses` map attached to every rendered operation, keys `"200"`,
`"400"`, `"500"`. -/
def standardResponses : List (String × JValue) :=
  [("200", response200), ("400", response400), ("500", response500)]

/-- One rendered operation: `{"summary", "description", "parameters",
"responses"}` as built in the loop body. -/
structure RenderedOperation where
  summary : String
  description : String
  parameters : List FixedParam
  responses : List (String × JValue)
deriving Repr

/-- The operation object `pathItem[methodLower]` is assigned for one
parsed method. -/
def renderMethod (details : Method) : RenderedOperation :=
  { summary := details.Summary, description := details.Description,
    parameters := details.Parameters.map renderParam,
    responses := standardResponses }

/-- The `pathItem` map built from a parsed record's `Methods`: every key
lower-cased (`strings.ToLower`), every value rendered by `renderMethod`. -/
def renderPathItem (methods : List (String × Method)) :
    List (String × RenderedOperation) :=
  methods.foldl (fun acc kv => mapInsert acc kv.1.toLower (renderMethod kv.2)) []

/-- The `OpenAPISpec` struct of cmd/main.go; `Info` is the fixed
title/version map. -/
structure OpenAPISpec where
  openapi : String
  info : List (String × String)
  paths : List (String × List (String × RenderedOperation))
deriving Repr

/-- The spec literal `buildOpenAPISpec` starts from. -/
def initialSpec : OpenAPISpec :=
  { openapi := "3.0.0",
    info := [("title", "Next.js API Documentation"), ("version", "1.0.0")],
    paths := [] }

/-- The body of the route loop in `buildOpenAPISpec`: ask `documentRoute`
for the route's record; on failure (`err != nil`) log and `continue`,
leaving the spec unchanged; on success render the path item and assign it
at `doc.Path`, overwriting any earlier entry for that path. -/
def assembleStep (documentRoute : APIRoute → Option RouteDocumentation)
    (spec : OpenAPISpec) (route : APIRoute) : OpenAPISpec :=
  match documentRoute route with
  | none => spec
  | some doc =>
    { spec with paths := mapInsert spec.paths doc.Path (renderPathItem doc.Methods) }

/-- `buildOpenAPISpec` from cmd/main.go: fold the route loop over the
discovered routes in order, starting from the fixed spec literal. -/
def buildOpenAPISpec (documentRoute : APIRoute → Option RouteDocumentation)
    (routes : List APIRoute) : OpenAPISpec :=
  routes.foldl (assembleStep documentRoute) initialSpec

/-! ## Specification-side characterizations

These definitions follow the words of the specification, not the code;
the theorems compare the code's functions against them. -/

mutual

/-- Specification-side description of discovery for one node: the
`(full path, content)` pairs, in traversal order, of the readable regular
files whose base name is one of the four recognized route-handler names. -/
def matchedFiles (path : String) (n : FSNode) : List (String × String) :=
  match n with
  | .file name readable content =>
    if isRouteFile name ∧ readable then [(path, content)] else []
  | .dir _ entries => matchedFilesList path entries

/-- `matchedFiles` over a directory's entry list. -/
def matchedFilesList (dirPath : String) (ns : List FSNode) : List (String × String) :=
  match ns with
  | [] => []
  | n :: rest =>
    matchedFiles (dirPath ++ "/" ++ nodeName n) n ++ matchedFilesList dirPath rest

end

/-! # Lemmas

Shared facts about the association-list map operations and the assembler's
folds. -/

theorem mapLookup_mapInsert_self {β : Type} (m : List (String × β)) (k : String) (v : β) :
    mapLookup (mapInsert m k v) k = some v := by
  induction m with
  | nil => simp [mapInsert, mapLookup]
  | cons p rest ih =>
    obtain ⟨k0, v0⟩ := p
    by_cases h : k0 = k <;> simp [mapInsert, mapLookup, h, ih]

theorem mapLookup_mapInsert_ne {β : Type} (m : List (String × β)) (k k' : String) (v : β)
    (h : k' ≠ k) : mapLookup (mapInsert m k v) k' = mapLookup m k' := by
  have hk : ¬ k = k' := fun hh => h hh.symm
  induction m with
  | nil => simp [mapInsert, mapLookup, hk]
  | cons p rest ih =>
    obtain ⟨k0, v0⟩ := p
    by_cases h0 : k0 = k
    · subst h0
      simp [mapInsert, mapLookup, hk]
    · by_cases h1 : k0 = k' <;> simp [mapInsert, mapLookup, h0, h1, ih, h]

theorem mem_mapInsert {β : Type} {m : List (String × β)} {k : String} {v : β}
    {p : String × β} (h : p ∈ mapInsert m k v) : p = (k, v) ∨ p ∈ m := by
  induction m with
  | nil => simpa [mapInsert] using h
  | cons q rest ih =>
    obtain ⟨k0, v0⟩ := q
    by_cases h0 : k0 = k
    · simp only [mapInsert, if_pos h0] at h
      rcases List.mem_cons.mp h with h1 | h1
      · exact Or.inl h1
      · exact Or.inr (List.mem_cons_of_mem _ h1)
    · simp only [mapInsert, if_neg h0] at h
      rcases List.mem_cons.mp h with h1 | h1
      · exact Or.inr (by simp [h1])
      · rcases ih h1 with h' | h'
        · exact Or.inl h'
        · exact Or.inr (List.mem_cons_of_mem _ h')

theorem mem_keys_mapInsert {β : Type} {m : List (String × β)} {k a : String} {v : β}
    (h : a ∈ (mapInsert m k v).map Prod.fst) : a = k ∨ a ∈ m.map Prod.fst := by
  rcases List.mem_map.mp h with ⟨p, hp, rfl⟩
  rcases mem_mapInsert hp with h' | h'
  · exact Or.inl (by simp [h'])
  · exact Or.inr (List.mem_map_of_mem _ h')

theorem mapInsert_keys_nodup {β : Type} (m : List (String × β)) (k : String) (v : β)
    (h : (m.map Prod.fst).Nodup) : ((mapInsert m k v).map Prod.fst).Nodup := by
  induction m with
  | nil => simp [mapInsert]
  | cons p rest ih =>
    obtain ⟨k0, v0⟩ := p
    simp only [List.map_cons, List.nodup_cons] at h
    by_cases h0 : k0 = k
    · subst h0
      simpa [mapInsert, List.nodup_cons] using h
    · simp only [mapInsert, if_neg h0, List.map_cons, List.nodup_cons]
      refine ⟨fun hmem => ?_, ih h.2⟩
      rcases mem_keys_mapInsert hmem with h' | h'
      · exact h0 h'
      · exact h.1 h'

theorem mapLookup_isSome_mapInsert {β : Type} (m : List (String × β)) (k k' : String)
    (v : β) (h : (mapLookup m k').isSome) : (mapLookup (mapInsert m k v) k').isSome := by
  by_cases hk : k' = k
  · subst hk; simp [mapLookup_mapInsert_self]
  · rwa [mapLookup_mapInsert_ne _ _ _ _ hk]

/-- The fold inside `renderPathItem`, over an arbitrary accumulator:
every member either was in the accumulator or is the lower-cased rendering
of a parsed method. -/
theorem renderFold_mem (ms : List (String × Method))
    (acc : List (String × RenderedOperation)) {p : String × RenderedOperation}
    (h : p ∈ ms.foldl (fun acc kv => mapInsert acc kv.1.toLower (renderMethod kv.2)) acc) :
    p ∈ acc ∨ ∃ kv ∈ ms, p = (kv.1.toLower, renderMethod kv.2) := by
  induction ms generalizing acc with
  | nil => exact Or.inl (by simpa using h)
  | cons kv rest ih =>
    simp only [List.foldl_cons] at h
    rcases ih _ h with h' | h'
    · rcases mem_mapInsert h' with h'' | h''
      · exact Or.inr ⟨kv, List.mem_cons_self _ _, h''⟩
      · exact Or.inl h''
    · rcases h' with ⟨kv', hkv', rfl⟩
      exact Or.inr ⟨kv', List.mem_cons_of_mem _ hkv', rfl⟩

theorem renderFold_keys_nodup (ms : List (String × Method))
    (acc : List (String × RenderedOperation)) (h : (acc.map Prod.fst).Nodup) :
    ((ms.foldl (fun acc kv => mapInsert acc kv.1.toLower (renderMethod kv.2)) acc).map
      Prod.fst).Nodup := by
  induction ms generalizing acc with
  | nil => simpa using h
  | cons kv rest ih =>
    simp only [List.foldl_cons]
    exact ih _ (mapInsert_keys_nodup _ _ _ h)

theorem renderFold_lookup_isSome (ms : List (String × Method))
    (acc : List (String × RenderedOperation)) (k : String)
    (h : (mapLookup acc k).isSome ∨ ∃ kv ∈ ms, kv.1.toLower = k) :
    (mapLookup (ms.foldl (fun acc kv => mapInsert acc kv.1.toLower (renderMethod kv.2))
      acc) k).isSome := by
  induction ms generalizing acc with
  | nil =>
    rcases h with h | h
    · simpa using h
    · simp at h
  | cons kv rest ih =>
    simp only [List.foldl_cons]
    rcases h with h | h
    · exact ih _ (Or.inl (mapLookup_isSome_mapInsert _ _ _ _ h))
    · rcases h with ⟨kv', hkv', hk⟩
      rcases List.mem_cons.mp hkv' with rfl | hmem
      · refine ih _ (Or.inl ?_)
        rw [← hk]
        simp [mapLookup_mapInsert_self]
      · exact ih _ (Or.inr ⟨kv', hmem, hk⟩)

theorem assembleStep_openapi (f : APIRoute → Option RouteDocumentation)
    (spec : OpenAPISpec) (r : APIRoute) :
    (assembleStep f spec r).openapi = spec.openapi ∧
    (assembleStep f spec r).info = spec.info := by
  unfold assembleStep
  cases f r <;> simp

theorem assembleFold_openapi (f : APIRoute → Option RouteDocumentation)
    (routes : List APIRoute) (spec : OpenAPISpec) :
    ((routes.foldl (assembleStep f) spec).openapi = spec.openapi ∧
     (routes.foldl (assembleStep f) spec).info = spec.info) := by
  induction routes generalizing spec with
  | nil => simp
  | cons r rest ih =>
    simp only [List.foldl_cons]
    rcases ih (assembleStep f spec r) with ⟨h1, h2⟩
    rcases assembleStep_openapi f spec r with ⟨h3, h4⟩
    exact ⟨h1.trans h3, h2.trans h4⟩

theorem assembleFold_paths_mem (f : APIRoute → Option RouteDocumentation)
    (routes : List APIRoute) (spec : OpenAPISpec)
    {pr : String × List (String × RenderedOperation)}
    (h : pr ∈ (routes.foldl (assembleStep f) spec).paths) :
    pr ∈ spec.paths ∨
      ∃ r ∈ routes, ∃ d, f r = some d ∧ pr = (d.Path, renderPathItem d.Methods) := by
  induction routes generalizing spec with
  | nil => exact Or.inl (by simpa using h)
  | cons r rest ih =>
    simp only [List.foldl_cons] at h
    rcases ih _ h with h' | h'
    · unfold assembleStep at h'
      rcases hr : f r with _ | doc
      · rw [hr] at h'
        exact Or.inl h'
      · rw [hr] at h'
        simp only at h'
        rcases mem_mapInsert h' with h'' | h''
        · exact Or.inr ⟨r, List.mem_cons_self _ _, doc, hr, h''⟩
        · exact Or.inl h''
    · rcases h' with ⟨r', hr', d, hd, rfl⟩
      exact Or.inr ⟨r', List.mem_cons_of_mem _ hr', d, hd, rfl⟩

theorem assembleFold_keys_nodup (f : APIRoute → Option RouteDocumentation)
    (routes : List APIRoute) (spec : OpenAPISpec)
    (h : (spec.paths.map Prod.fst).Nodup) :
    (((routes.foldl (assembleStep f) spec).paths).map Prod.fst).Nodup := by
  induction routes generalizing spec with
  | nil => simpa using h
  | cons r rest ih =>
    simp only [List.foldl_cons]
    refine ih _ ?_
    unfold assembleStep
    cases f r
    · exact h
    · exact mapInsert_keys_nodup _ _ _ h

theorem assembleFold_all_none (f : APIRoute → Option RouteDocumentation)
    (routes : List APIRoute) (spec : OpenAPISpec)
    (h : ∀ r ∈ routes, f r = none) :
    routes.foldl (assembleStep f) spec = spec := by
  induction routes generalizing spec with
  | nil => simp
  | cons r rest ih =>
    simp only [List.foldl_cons]
    have hr : f r = none := h r (List.mem_cons_self _ _)
    rw [show assembleStep f spec r = spec by unfold assembleStep; rw [hr]]
    exact ih _ (fun r' hr' => h r' (List.mem_cons_of_mem _ hr'))

theorem build_append_single (f : APIRoute → Option RouteDocumentation)
    (pre : List APIRoute) (r : APIRoute) :
    buildOpenAPISpec f (pre ++ [r]) = assembleStep f (buildOpenAPISpec f pre) r := by
  simp [buildOpenAPISpec, List.foldl_append]

/-! # Claim theorems -/

/-- C1: for every successfully parsed `RouteDocumentation`, the assembler
lower-cases every method key, translates each parameter into the shape
`{name, in, required, schema: {type}}` preserving the parameter's name,
location, required flag and declared type, and attaches a responses object
containing exactly the keys "200", "400" and "500" to every rendered
operation, regardless of what the parsed record contained: every path item
in the assembled document is `renderPathItem` of some parsed record, every
entry of such an item is the lower-cased rendering of one of the record's
methods, every method of the record appears under its lower-cased key, and
the rendered operation's parameter and response shapes are as claimed. -/
theorem assembler_shape_C1 (f : APIRoute → Option RouteDocumentation)
    (routes : List APIRoute) (doc : RouteDocumentation) :
    (∀ pr ∈ (buildOpenAPISpec f routes).paths,
       ∃ r ∈ routes, ∃ d, f r = some d ∧ pr = (d.Path, renderPathItem d.Methods)) ∧
    (∀ p ∈ renderPathItem doc.Methods,
       ∃ kv ∈ doc.Methods, p = (kv.1.toLower, renderMethod kv.2)) ∧
    (∀ kv ∈ doc.Methods,
       (mapLookup (renderPathItem doc.Methods) kv.1.toLower).isSome) ∧
    (∀ p ∈ renderPathItem doc.Methods,
       p.2.responses.map Prod.fst = ["200", "400", "500"]) ∧
    (∀ d : Method, renderMethod d =
       ⟨d.Summary, d.Description, d.Parameters.map renderParam, standardResponses⟩) ∧
    (∀ par : Parameter, renderParam par = ⟨par.Name, par.In, par.Required, ⟨par.Ty⟩⟩) := by
  refine ⟨?_, ?_, ?_, ?_, fun d => rfl, fun par => rfl⟩
  · intro pr hpr
    rcases assembleFold_paths_mem f routes initialSpec hpr with h | h
    · simp [initialSpec] at h
    · exact h
  · intro p hp
    rcases renderFold_mem doc.Methods [] hp with h | h
    · simp at h
    · exact h
  · intro kv hkv
    exact renderFold_lookup_isSome doc.Methods [] _ (Or.inr ⟨kv, hkv, rfl⟩)
  · intro p hp
    rcases renderFold_mem doc.Methods [] hp with h | h
    · simp at h
    · rcases h with ⟨kv, _, rfl⟩
      rfl

/-- C2: in the assembled document each (path, method) pair appears at most
once (the key lists of the paths map and of every path item are duplicate
free); when a later route declares the same path, its whole operation map
replaces the earlier entry (the final entry is exactly the last record's
rendering, with no merge); and assembling the same record twice in
sequence yields the same paths as assembling it once — the entry equals
what the second assembly produced. -/
theorem paths_overwrite_C2 (f : APIRoute → Option RouteDocumentation)
    (routes pre : List APIRoute) (r : APIRoute) (doc : RouteDocumentation)
    (h : f r = some doc) :
    ((buildOpenAPISpec f routes).paths.map Prod.fst).Nodup ∧
    (∀ pr ∈ (buildOpenAPISpec f routes).paths, (pr.2.map Prod.fst).Nodup) ∧
    mapLookup (buildOpenAPISpec f (pre ++ [r])).paths doc.Path =
      some (renderPathItem doc.Methods) ∧
    (buildOpenAPISpec f [r, r]).paths = (buildOpenAPISpec f [r]).paths := by
  refine ⟨?_, ?_, ?_, ?_⟩
  · exact assembleFold_keys_nodup f routes initialSpec (by simp [initialSpec])
  · intro pr hpr
    rcases assembleFold_paths_mem f routes initialSpec hpr with h' | h'
    · simp [initialSpec] at h'
    · rcases h' with ⟨_, _, d, _, rfl⟩
      exact renderFold_keys_nodup d.Methods [] (by simp)
  · rw [build_append_single]
    unfold assembleStep
    rw [h]
    exact mapLookup_mapInsert_self _ _ _
  · simp [buildOpenAPISpec, assembleStep, h, initialSpec, mapInsert]

/-- C9: when every route's generation or parsing fails, assembly completes
and yields the initial document: an empty `paths` mapping with the fixed
`openapi` version tag and `info` block still present. -/
theorem all_failures_empty_paths_C9 (f : APIRoute → Option RouteDocumentation)
    (routes : List APIRoute) (hne : routes ≠ [])
    (hall : ∀ r ∈ routes, f r = none) :
    buildOpenAPISpec f routes = initialSpec ∧
    (buildOpenAPISpec f routes).paths = [] ∧
    (buildOpenAPISpec f routes).openapi = "3.0.0" ∧
    (buildOpenAPISpec f routes).info =
      [("title", "Next.js API Documentation"), ("version", "1.0.0")] := by
  have hb : buildOpenAPISpec f routes = initialSpec :=
    assembleFold_all_none f routes initialSpec hall
  exact ⟨hb, by rw [hb]; rfl, by rw [hb]; rfl, by rw [hb]; rfl⟩

/-- C10: every route whose reply parses successfully contributes an entry
to the paths mapping keyed by the record's declared path — even when the
parsed methods map is empty, in which case the inserted operation map is
empty rather than the path being skipped. -/
theorem parsed_route_inserts_path_C10 (f : APIRoute → Option RouteDocumentation)
    (pre : List APIRoute) (r : APIRoute) (doc : RouteDocumentation)
    (h : f r = some doc) :
    mapLookup (buildOpenAPISpec f (pre ++ [r])).paths doc.Path =
      some (renderPathItem doc.Methods) ∧
    renderPathItem ([] : List (String × Method)) = [] ∧
    (doc.Methods = [] →
      mapLookup (buildOpenAPISpec f (pre ++ [r])).paths doc.Path = some []) := by
  have hmain : mapLookup (buildOpenAPISpec f (pre ++ [r])).paths doc.Path =
      some (renderPathItem doc.Methods) := by
    rw [build_append_single]
    unfold assembleStep
    rw [h]
    exact mapLookup_mapInsert_self _ _ _
  exact ⟨hmain, rfl, fun hempty => by rw [hmain, hempty]; rfl⟩

/-- Witness for C2: the hypotheses are satisfiable at a concrete input. -/
theorem paths_overwrite_C2_witness :
    ((buildOpenAPISpec (fun _ => some ⟨"/a", [("GET", zeroMethod)], ""⟩)
        [routeOfFile "p" "c"]).paths.map Prod.fst).Nodup ∧
    (∀ pr ∈ (buildOpenAPISpec (fun _ => some ⟨"/a", [("GET", zeroMethod)], ""⟩)
        [routeOfFile "p" "c"]).paths, (pr.2.map Prod.fst).Nodup) ∧
    mapLookup (buildOpenAPISpec (fun _ => some ⟨"/a", [("GET", zeroMethod)], ""⟩)
        ([] ++ [routeOfFile "p" "c"])).paths "/a" =
      some (renderPathItem [("GET", zeroMethod)]) ∧
    (buildOpenAPISpec (fun _ => some ⟨"/a", [("GET", zeroMethod)], ""⟩)
        [routeOfFile "p" "c", routeOfFile "p" "c"]).paths =
      (buildOpenAPISpec (fun _ => some ⟨"/a", [("GET", zeroMethod)], ""⟩)
        [routeOfFile "p" "c"]).paths :=
  paths_overwrite_C2 (fun _ => some ⟨"/a", [("GET", zeroMethod)], ""⟩)
    [routeOfFile "p" "c"] [] (routeOfFile "p" "c")
    ⟨"/a", [("GET", zeroMethod)], ""⟩ rfl

/-- Witness for C9: the hypotheses are satisfiable at a concrete input. -/
theorem all_failures_empty_paths_C9_witness :
    buildOpenAPISpec (fun _ => none) [routeOfFile "p" "c"] = initialSpec ∧
    (buildOpenAPISpec (fun _ => none) [routeOfFile "p" "c"]).paths = [] ∧
    (buildOpenAPISpec (fun _ => none) [routeOfFile "p" "c"]).openapi = "3.0.0" ∧
    (buildOpenAPISpec (fun _ => none) [routeOfFile "p" "c"]).info =
      [("title", "Next.js API Documentation"), ("version", "1.0.0")] :=
  all_failures_empty_paths_C9 (fun _ => none) [routeOfFile "p" "c"]
    (by simp) (by simp)

/-- Witness for C10: the hypotheses are satisfiable at a concrete input
with an empty parsed methods map. -/
theorem parsed_route_inserts_path_C10_witness :
    mapLookup (buildOpenAPISpec (fun _ => some ⟨"/b", [], "d"⟩)
        ([] ++ [routeOfFile "p" "c"])).paths "/b" =
      some (renderPathItem ([] : List (String × Method))) ∧
    renderPathItem ([] : List (String × Method)) = [] ∧
    (([] : List (String × Method)) = [] →
      mapLookup (buildOpenAPISpec (fun _ => some ⟨"/b", [], "d"⟩)
        ([] ++ [routeOfFile "p" "c"])).paths "/b" = some []) :=
  parsed_route_inserts_path_C10 (fun _ => some ⟨"/b", [], "d"⟩) []
    (routeOfFile "p" "c") ⟨"/b", [], "d"⟩ rfl

/-- Counterexample to C4 as stated: the code checks `resp.StatusCode !=
http.StatusOK`, i.e. not-200, not "non-2xx". Status 204 is a 2xx success
status and its body decodes as a valid reply envelope (the same body
succeeds under status 200), yet the call fails with a `ServiceError`
carrying 204. -/
theorem send_status_2xx_fails_C4_cex :
    (200 ≤ 204 ∧ 204 < 300) ∧
    sendRequest (.success 204 "\x7b\"response\":\"ok\",\"done\":true\x7d") =
      .error (.statusError 204) ∧
    sendRequest (.success 200 "\x7b\"response\":\"ok\",\"done\":true\x7d") =
      .ok "ok" := by
  refine ⟨by decide, by decide, by decide⟩

/-- C4 amended: the generation call fails with a `ServiceError` carrying
the response's status code exactly when the status is not 200
(`http.StatusOK`) — so 2xx statuses other than 200 fail too — and under
status 200 it never raises a `ServiceError`: it either fails to decode the
envelope (`ProtocolError`) or succeeds. -/
theorem send_status_check_C4 (code : Nat) (body : String) :
    (code ≠ 200 → sendRequest (.success code body) = .error (.statusError code)) ∧
    (code = 200 → ∀ c, sendRequest (.success code body) ≠ .error (.statusError c)) ∧
    (code = 200 → sendRequest (.success code body) = .error .decodeError ∨
      ∃ t, sendRequest (.success code body) = .ok t) := by
  refine ⟨?_, ?_, ?_⟩
  · intro h
    simp [sendRequest, h]
  · intro h c
    subst h
    simp only [sendRequest, ne_eq, not_true_eq_false, reduceIte]
    cases hd : jsonDecodeOllamaResp body <;> simp [hd]
  · intro h
    subst h
    simp only [sendRequest, ne_eq, not_true_eq_false, reduceIte]
    cases hd : jsonDecodeOllamaResp body with
    | none => exact Or.inl (by simp [hd])
    | some env => exact Or.inr ⟨env.Response, by simp [hd]⟩

/-- C5: the reply sanitizer/parser produces the same parsed
`RouteDocumentation` record for the fenced input as for the bare JSON
input — fence stripping does not change the recovered record — and that
record is `{Path := "/x", Methods := nil, Description := ""}`. -/
theorem fence_stripping_same_record_C5 :
    parseResponse "```JSON\n\x7b\"path\":\"/x\"\x7d\n```" =
      parseResponse "\x7b\"path\":\"/x\"\x7d" ∧
    parseResponse "\x7b\"path\":\"/x\"\x7d" = some ⟨"/x", [], ""⟩ := by
  refine ⟨by decide, by decide⟩

/-- The scanner's walk callback returns nil (no error) on every event:
walk errors, directories, non-route files, unreadable route files and
readable route files alike. -/
theorem scanCallback_no_error (st : List APIRoute) (ev : WalkEvent) :
    (scanCallback st ev).2 = none := by
  cases ev with
  | failed _ => rfl
  | ent path name isDir readRes =>
    cases isDir <;> cases readRes <;>
      by_cases h : isRouteFile name <;> simp [scanCallback, h]

/-- When the callback never returns an error, `WalkDir`'s threading is a
plain fold and the returned error is nil. -/
theorem walkFold_no_error {σ : Type} (fn : σ → WalkEvent → σ × Option String)
    (hfn : ∀ st ev, (fn st ev).2 = none) (st : σ) (evs : List WalkEvent) :
    walkFold fn st evs = (evs.foldl (fun s e => (fn s e).1) st, none) := by
  induction evs generalizing st with
  | nil => rfl
  | cons ev rest ih =>
    have h := hfn st ev
    rcases hfe : fn st ev with ⟨st2, err⟩
    rw [hfe] at h
    simp only at h
    subst h
    simp only [walkFold, hfe, List.foldl_cons]
    exact ih st2

mutual

/-- Folding the scanner callback over one node's walk events appends
exactly the routes of its matched readable files. -/
theorem scanFold_node (path : String) (n : FSNode) (st : List APIRoute) :
    (walkEvents path n).foldl (fun s e => (scanCallback s e).1) st =
      st ++ (matchedFiles path n).map (fun pc => routeOfFile pc.1 pc.2) := by
  cases n with
  | file name readable content =>
    cases readable <;> by_cases h : isRouteFile name <;>
      simp [walkEvents, matchedFiles, scanCallback, h]
  | dir name entries =>
    simp only [walkEvents, matchedFiles, List.foldl_cons]
    have hdir : (scanCallback st (.ent path name true none)).1 = st := rfl
    rw [hdir]
    exact scanFold_list path entries st

/-- Folding the scanner callback over a directory listing's walk events
appends exactly the routes of the listing's matched readable files. -/
theorem scanFold_list (dirPath : String) (ns : List FSNode) (st : List APIRoute) :
    (walkEventsList dirPath ns).foldl (fun s e => (scanCallback s e).1) st =
      st ++ (matchedFilesList dirPath ns).map (fun pc => routeOfFile pc.1 pc.2) := by
  cases ns with
  | nil => simp [walkEventsList, matchedFilesList]
  | cons n rest =>
    rw [walkEventsList, matchedFilesList, List.foldl_append,
      scanFold_node (dirPath ++ "/" ++ nodeName n) n st,
      scanFold_list dirPath rest _]
    simp [List.append_assoc]

end

/-- `matchedFilesList` distributes over list append. -/
theorem matchedFilesList_append (dirPath : String) (l1 l2 : List FSNode) :
    matchedFilesList dirPath (l1 ++ l2) =
      matchedFilesList dirPath l1 ++ matchedFilesList dirPath l2 := by
  induction l1 with
  | nil => simp [matchedFilesList]
  | cons n rest ih => rw [List.cons_append, matchedFilesList, matchedFilesList, ih,
      List.append_assoc]

/-- `ScanRoutes` over an existing tree: the collected routes are exactly
the matched readable files' routes, and the error is nil. -/
theorem ScanRoutes_eq (rootDir : String) (t : FSNode) :
    ScanRoutes rootDir (some t) =
      ((matchedFiles rootDir t).map (fun pc => routeOfFile pc.1 pc.2), none) := by
  show walkFold scanCallback [] (walkEvents rootDir t) = _
  rw [walkFold_no_error scanCallback scanCallback_no_error [] (walkEvents rootDir t),
    scanFold_node rootDir t []]
  simp

/-- Counterexample to C3 as stated: when the walk cannot start (the root
does not exist, so `Lstat` fails and `WalkDir` hands the callback that
error once), `ScanRoutes` returns an empty route list and a nil error —
no hard error, no `DiscoveryFailure` aborting the run — because the
callback's `if err != nil { return nil }` branch swallows the walk error. -/
theorem scan_missing_root_no_error_C3_cex :
    ScanRoutes "./api" none = ([], none) := rfl

/-- C3 amended: route discovery never returns a hard error — a walk that
cannot start yields an empty route list with a nil error — and a read
failure on an individual candidate file is silently skipped and never
aborts the walk: deleting an unreadable file from a directory does not
change the result at all. -/
theorem scan_never_errors_C3 (rootDir : String) (root : Option FSNode)
    (dirname name content : String) (pre suf : List FSNode) :
    (ScanRoutes rootDir root).2 = none ∧
    ScanRoutes rootDir (some (.dir dirname (pre ++ .file name false content :: suf))) =
      ScanRoutes rootDir (some (.dir dirname (pre ++ suf))) := by
  constructor
  · cases root with
    | none => rfl
    | some t => rw [ScanRoutes_eq]
  · rw [ScanRoutes_eq, ScanRoutes_eq]
    have h : matchedFiles rootDir (.dir dirname (pre ++ .file name false content :: suf)) =
        matchedFiles rootDir (.dir dirname (pre ++ suf)) := by
      show matchedFilesList rootDir (pre ++ .file name false content :: suf) =
        matchedFilesList rootDir (pre ++ suf)
      rw [show (FSNode.file name false content :: suf) = [FSNode.file name false content] ++ suf from rfl,
        matchedFilesList_append, matchedFilesList_append, matchedFilesList_append]
      have : matchedFilesList rootDir [FSNode.file name false content] = [] := by
        simp [matchedFilesList, matchedFiles]
      rw [this]
      simp
    rw [h]

/-- C8: for any directory tree, discovery returns exactly one `RouteUnit`
per readable regular file whose base name is one of `route.js`,
`route.ts`, `route.jsx`, `route.tsx` (case-sensitively — `isRouteFile`
accepts exactly those four names), in traversal order, each carrying that
file's full content; files with any other base name contribute nothing. -/
theorem discovery_exactly_matched_C8 (rootDir : String) (t : FSNode) :
    (ScanRoutes rootDir (some t)).1 =
      (matchedFiles rootDir t).map (fun pc => routeOfFile pc.1 pc.2) ∧
    (ScanRoutes rootDir (some t)).1.length = (matchedFiles rootDir t).length ∧
    (∀ pc ∈ matchedFiles rootDir t,
      (routeOfFile pc.1 pc.2).Content = pc.2 ∧ (routeOfFile pc.1 pc.2).FilePath = pc.1) ∧
    (∀ name, isRouteFile name = true ↔
      (name = "route.js" ∨ name = "route.ts" ∨ name = "route.jsx" ∨ name = "route.tsx")) := by
  refine ⟨by rw [ScanRoutes_eq], by rw [ScanRoutes_eq]; simp, fun pc _ => ⟨rfl, rfl⟩, ?_⟩
  intro name
  simp [isRouteFile]
  tauto

/-- `goIndexChar` agrees with `List.findIdx?`: the Go `-1` convention
versus the optional first index. -/
theorem goIndexChar_eq_findIdx? (cs : List Char) (c : Char) :
    goIndexChar cs c = ((cs.findIdx? (· == c)).elim (-1) (fun i => (i : Int))) := by
  induction cs with
  | nil => rfl
  | cons x rest ih =>
    by_cases h : x = c
    · simp [goIndexChar, h, List.findIdx?_cons]
    · have hx : (x == c) = false := by simp [h]
      simp only [goIndexChar, if_neg h, List.findIdx?_cons, hx, Bool.false_eq_true,
        if_false, List.findIdx?_start_succ]
      cases h2 : rest.findIdx? (· == c) with
      | none => simp [ih, h2]
      | some i =>
        rw [ih, h2]
        simp only [Option.elim_some, Option.map_some', Option.elim]
        have : ((i : Int)) ≠ -1 := by omega
        simp only [this, if_false]
        push_cast
        ring

/-- `goLastIndexChar` agrees with searching the reversed list: the last
index of `c` is `length - 1 - k` where `k` is the first index of `c` in
the reversal. -/
theorem goLastIndexChar_eq_findIdx? (cs : List Char) (c : Char) :
    goLastIndexChar cs c =
      ((cs.reverse.findIdx? (· == c)).elim (-1)
        (fun k => (cs.length : Int) - 1 - k)) := by
  unfold goLastIndexChar
  rw [goIndexChar_eq_findIdx?]
  cases h : cs.reverse.findIdx? (· == c) with
  | none => simp
  | some k =>
    simp only [Option.elim_some]
    have : ((k : Int)) ≠ -1 := by omega
    simp [this]

/-- The characters of the cleaned reply, with the `String.mk` wrappers
removed. -/
theorem cleanMarkdownJSON_data (s : String) :
    (cleanMarkdownJSON s).data =
      (if goIndexChar (goTrimSpace (stripFence s.data)) lbrace ≠ -1 ∧
          goLastIndexChar (goTrimSpace (stripFence s.data)) rbrace ≠ -1 ∧
          goLastIndexChar (goTrimSpace (stripFence s.data)) rbrace >
            goIndexChar (goTrimSpace (stripFence s.data)) lbrace then
        ((goTrimSpace (stripFence s.data)).drop
            (goIndexChar (goTrimSpace (stripFence s.data)) lbrace).toNat).take
          ((goLastIndexChar (goTrimSpace (stripFence s.data)) rbrace).toNat + 1 -
            (goIndexChar (goTrimSpace (stripFence s.data)) lbrace).toNat)
      else goTrimSpace (stripFence s.data)) := by
  unfold cleanMarkdownJSON
  dsimp only
  split <;> rfl

/-- C7: after fence removal and whitespace trimming, the sanitizer slices
from the first opening brace through the last closing brace inclusive when
both exist and the closing index strictly follows the opening index, and
returns the text unchanged otherwise. The first index is
`List.findIdx? (eq to lbrace)`; the last closing index is `length - 1 - k`
for `k` the first index of the closing brace in the reversed text. -/
theorem cleanMarkdown_slice_C7 (s : String) :
    (∀ i j, (goTrimSpace (stripFence s.data)).findIdx? (· == lbrace) = some i →
      ((goTrimSpace (stripFence s.data)).reverse.findIdx? (· == rbrace)).map
        (fun k => (goTrimSpace (stripFence s.data)).length - 1 - k) = some j →
      (i < j → (cleanMarkdownJSON s).data =
        ((goTrimSpace (stripFence s.data)).drop i).take (j + 1 - i)) ∧
      (¬ i < j → (cleanMarkdownJSON s).data = goTrimSpace (stripFence s.data))) ∧
    (((goTrimSpace (stripFence s.data)).findIdx? (· == lbrace) = none ∨
      (goTrimSpace (stripFence s.data)).reverse.findIdx? (· == rbrace) = none) →
      (cleanMarkdownJSON s).data = goTrimSpace (stripFence s.data)) := by
  rw [cleanMarkdownJSON_data]
  set t := goTrimSpace (stripFence s.data) with ht
  constructor
  · intro i j hf hj
    rcases Option.map_eq_some'.mp hj with ⟨k, hk, hjk⟩
    have hklen : k < t.length := by
      have := (List.findIdx?_eq_some_iff_findIdx_eq.mp hk).1
      simpa using this
    have hstart : goIndexChar t lbrace = (i : Int) := by
      rw [goIndexChar_eq_findIdx?, hf]; rfl
    have hstop : goLastIndexChar t rbrace = (t.length : Int) - 1 - k := by
      rw [goLastIndexChar_eq_findIdx?, hk]; rfl
    constructor
    · intro hij
      have hcond : goIndexChar t lbrace ≠ -1 ∧ goLastIndexChar t rbrace ≠ -1 ∧
          goLastIndexChar t rbrace > goIndexChar t lbrace := by
        rw [hstart, hstop]
        refine ⟨by omega, by omega, by omega⟩
      rw [if_pos hcond, hstart, hstop]
      have h1 : ((i : Int)).toNat = i := by omega
      have h2 : (((t.length : Int) - 1 - k)).toNat = j := by omega
      rw [h1, h2]
    · intro hij
      have hcond : ¬ (goIndexChar t lbrace ≠ -1 ∧ goLastIndexChar t rbrace ≠ -1 ∧
          goLastIndexChar t rbrace > goIndexChar t lbrace) := by
        rw [hstart, hstop]
        rintro ⟨-, -, hgt⟩
        omega
      rw [if_neg hcond]
  · intro h
    have hcond : ¬ (goIndexChar t lbrace ≠ -1 ∧ goLastIndexChar t rbrace ≠ -1 ∧
        goLastIndexChar t rbrace > goIndexChar t lbrace) := by
      rcases h with h | h
      · rw [goIndexChar_eq_findIdx?, h]
        rintro ⟨hne, -, -⟩
        exact hne rfl
      · rw [goLastIndexChar_eq_findIdx?, h]
        rintro ⟨-, hne, -⟩
        exact hne rfl
    rw [if_neg hcond]

/-- Two strings with the same character list are equal. -/
theorem string_eq_of_data {a b : String} (h : a.data = b.data) : a = b := by
  cases a
  cases b
  exact congrArg String.mk (by simpa using h)

/-- JSON whitespace is Go whitespace. -/
theorem jsonWs_imp_goIsSpace (c : Char) (h : jsonWs c = true) : goIsSpace c = true := by
  simp only [jsonWs, Bool.or_eq_true, decide_eq_true_eq] at h
  rcases h with ((h | h) | h) | h <;> subst h <;> decide

/-- The head surviving a `dropWhile` fails the predicate. -/
theorem dropWhile_head_false (p : Char → Bool) (l : List Char) (c : Char)
    (rest : List Char) (h : l.dropWhile p = c :: rest) : p c = false := by
  induction l with
  | nil => simp at h
  | cons x xs ih =>
    rw [List.dropWhile_cons] at h
    by_cases hx : p x
    · rw [if_pos hx] at h
      exact ih h
    · rw [if_neg hx] at h
      cases h
      simpa using hx

/-- The trimmed list is a prefix of the left-trimmed list. -/
theorem goTrimSpace_prefix (cs : List Char) :
    goTrimSpace cs <+: cs.dropWhile goIsSpace := by
  unfold goTrimSpace
  have h := List.dropWhile_suffix (l := (cs.dropWhile goIsSpace).reverse) goIsSpace
  have h2 := List.reverse_prefix.mpr h
  simpa using h2

/-- The first character of the trimmed list is not Go whitespace. -/
theorem goTrimSpace_head_not_space (cs : List Char) (c : Char) (rest : List Char)
    (h : goTrimSpace cs = c :: rest) : goIsSpace c = false := by
  rcases goTrimSpace_prefix cs with ⟨w, hw⟩
  rw [h] at hw
  exact dropWhile_head_false goIsSpace cs c (rest ++ w) (by rw [← hw]; rfl)

/-- The last character of the trimmed list is not Go whitespace. -/
theorem goTrimSpace_getLast_not_space (cs : List Char) (c : Char)
    (h : (goTrimSpace cs).getLast? = some c) : goIsSpace c = false := by
  unfold goTrimSpace at h
  rw [List.getLast?_reverse] at h
  cases hdw : ((cs.dropWhile goIsSpace).reverse).dropWhile goIsSpace with
  | nil => rw [hdw] at h; simp at h
  | cons x xs =>
    rw [hdw] at h
    simp only [List.head?_cons, Option.some.injEq] at h
    rw [← h]
    exact dropWhile_head_false goIsSpace _ x xs hdw

/-- Skipping JSON whitespace leaves a trimmed list unchanged. -/
theorem skipJsonWs_trimmed (cs : List Char) :
    skipJsonWs (goTrimSpace cs) = goTrimSpace cs := by
  cases h : goTrimSpace cs with
  | nil => rfl
  | cons c rest =>
    have hc : goIsSpace c = false := goTrimSpace_head_not_space cs c rest h
    have hj : jsonWs c = false := by
      cases hjc : jsonWs c
      · rfl
      · rw [jsonWs_imp_goIsSpace c hjc] at hc; cases hc
    unfold skipJsonWs
    rw [List.dropWhile_cons, if_neg (by simp [hj])]

/-- Fence stripping keeps a sublist of the input. -/
theorem stripFence_sublist (cs : List Char) : List.Sublist (stripFence cs) cs := by
  induction cs using stripFence.induct with
  | case1 tail ih =>
    rw [stripFence]
    refine ih.trans ?_
    show List.Sublist tail (fenceMarker ++ tail)
    exact List.sublist_append_right _ _
  | case2 c rest hne ih =>
    rw [stripFence]
    · exact ih.cons₂ c
    · exact hne
  | case3 => simp [stripFence]

/-- Trimming keeps a sublist of the input. -/
theorem goTrimSpace_sublist (cs : List Char) : List.Sublist (goTrimSpace cs) cs := by
  unfold goTrimSpace
  have h1 : List.Sublist ((cs.dropWhile goIsSpace).reverse.dropWhile goIsSpace).reverse
      ((cs.dropWhile goIsSpace).reverse).reverse := by
    rw [List.reverse_sublist]
    exact List.dropWhile_sublist _
  have h2 : List.Sublist ((cs.dropWhile goIsSpace).reverse.reverse) cs := by
    rw [List.reverse_reverse]
    exact List.dropWhile_sublist _
  exact h1.trans h2

/-- The exponent-part parser only produces number values. -/
theorem numExp_number (acc cs : List Char) (v : JValue) (r : List Char)
    (h : numExp acc cs = some (v, r)) : ∃ lex, v = .number lex := by
  unfold numExp at h
  cases cs with
  | nil =>
    simp only [Option.some.injEq, Prod.mk.injEq] at h
    exact ⟨_, h.1.symm⟩
  | cons e rest =>
    dsimp only at h
    by_cases he : e = 'e' ∨ e = 'E'
    · rw [if_pos he] at h
      split at h
      · exact absurd h (by simp)
      · simp only [Option.some.injEq, Prod.mk.injEq] at h
        exact ⟨_, h.1.symm⟩
    · rw [if_neg he] at h
      simp only [Option.some.injEq, Prod.mk.injEq] at h
      exact ⟨_, h.1.symm⟩

/-- The fraction-part parser only produces number values. -/
theorem numFrac_number (acc cs : List Char) (v : JValue) (r : List Char)
    (h : numFrac acc cs = some (v, r)) : ∃ lex, v = .number lex := by
  unfold numFrac at h
  cases cs with
  | nil => exact numExp_number _ _ _ _ h
  | cons c rest =>
    dsimp only at h
    by_cases hc : c = '.'
    · rw [if_pos hc] at h
      split at h
      · exact absurd h (by simp)
      · exact numExp_number _ _ _ _ h
    · rw [if_neg hc] at h
      exact numExp_number _ _ _ _ h

/-- The number parser only produces number values. -/
theorem parseNumber_number (cs : List Char) (v : JValue) (r : List Char)
    (h : parseNumber cs = some (v, r)) : ∃ lex, v = .number lex := by
  unfold parseNumber at h
  simp only at h
  split at h
  · exact absurd h (by simp)
  · rename_i c rest heq
    by_cases hc : c = '0'
    · rw [if_pos hc] at h
      exact numFrac_number _ _ _ _ h
    · rw [if_neg hc] at h
      by_cases hd : c.isDigit
      · rw [if_pos hd] at h
        exact numFrac_number _ _ _ _ h
      · rw [if_neg hd] at h
        exact absurd h (by simp)

/-- If `parseValue` returns an object, the input contains an opening
brace: only the object branch, entered on an opening brace, builds an
`obj` value. -/
theorem parseValue_obj_mem (fuel : Nat) (cs : List Char)
    (fs : List (String × JValue)) (r : List Char)
    (h : parseValue fuel cs = some (.obj fs, r)) : lbrace ∈ cs := by
  cases fuel with
  | zero => simp [parseValue] at h
  | succ fuel =>
    unfold parseValue at h
    cases hsk : skipJsonWs cs with
    | nil => rw [hsk] at h; simp at h
    | cons c rest =>
      rw [hsk] at h
      dsimp only at h
      have hmem : c ∈ cs := by
        have hsub : List.Sublist (skipJsonWs cs) cs := List.dropWhile_sublist _
        exact hsub.subset (by rw [hsk]; exact List.mem_cons_self _ _)
      by_cases h1 : c = lbrace
      · exact h1 ▸ hmem
      · exfalso
        rw [if_neg h1] at h
        by_cases h2 : c = '['
        · rw [if_pos h2] at h
          cases hsk2 : skipJsonWs rest with
          | nil => rw [hsk2] at h; simp at h
          | cons c2 r2 =>
            rw [hsk2] at h
            dsimp only at h
            by_cases h3 : c2 = ']'
            · rw [if_pos h3] at h; simp at h
            · rw [if_neg h3] at h
              split at h <;> simp_all
        · rw [if_neg h2] at h
          by_cases h3 : c = '"'
          · rw [if_pos h3] at h
            split at h <;> simp_all
          · rw [if_neg h3] at h
            by_cases h4 : c = 't'
            · rw [if_pos h4] at h
              split at h <;> simp_all
            · rw [if_neg h4] at h
              by_cases h5 : c = 'f'
              · rw [if_pos h5] at h
                split at h <;> simp_all
              · rw [if_neg h5] at h
                by_cases h6 : c = 'n'
                · rw [if_pos h6] at h
                  split at h <;> simp_all
                · rw [if_neg h6] at h
                  by_cases h7 : c = '-' ∨ c.isDigit
                  · rw [if_pos h7] at h
                    obtain ⟨lex, hl⟩ := parseNumber_number _ _ _ h
                    simp at hl
                  · rw [if_neg h7] at h
                    simp at h

/-- If `parseValue` returns the null value, the (whitespace-skipped) input
starts with the literal `null` and the rest of the input follows it
directly: only the `null` branch builds the `null` value. -/
theorem parseValue_null_shape (fuel : Nat) (cs r : List Char)
    (h : parseValue fuel cs = some (.null, r)) :
    skipJsonWs cs = 'n' :: 'u' :: 'l' :: 'l' :: r := by
  cases fuel with
  | zero => simp [parseValue] at h
  | succ fuel =>
    unfold parseValue at h
    cases hsk : skipJsonWs cs with
    | nil => rw [hsk] at h; simp at h
    | cons c rest =>
      rw [hsk] at h
      dsimp only at h
      by_cases h1 : c = lbrace
      · exfalso
        rw [if_pos h1] at h
        cases hsk2 : skipJsonWs rest with
        | nil => rw [hsk2] at h; simp at h
        | cons c2 r2 =>
          rw [hsk2] at h
          dsimp only at h
          by_cases h3 : c2 = rbrace
          · rw [if_pos h3] at h; simp at h
          · rw [if_neg h3] at h
            split at h <;> simp_all
      · rw [if_neg h1] at h
        by_cases h2 : c = '['
        · exfalso
          rw [if_pos h2] at h
          cases hsk2 : skipJsonWs rest with
          | nil => rw [hsk2] at h; simp at h
          | cons c2 r2 =>
            rw [hsk2] at h
            dsimp only at h
            by_cases h3 : c2 = ']'
            · rw [if_pos h3] at h; simp at h
            · rw [if_neg h3] at h
              split at h <;> simp_all
        · rw [if_neg h2] at h
          by_cases h3 : c = '"'
          · exfalso
            rw [if_pos h3] at h
            split at h <;> simp_all
          · rw [if_neg h3] at h
            by_cases h4 : c = 't'
            · exfalso
              rw [if_pos h4] at h
              split at h <;> simp_all
            · rw [if_neg h4] at h
              by_cases h5 : c = 'f'
              · exfalso
                rw [if_pos h5] at h
                split at h <;> simp_all
              · rw [if_neg h5] at h
                by_cases h6 : c = 'n'
                · rw [if_pos h6] at h
                  by_cases h7 : (['u', 'l', 'l'].isPrefixOf rest : Bool)
                  · rw [if_pos h7] at h
                    simp only [Option.some.injEq, Prod.mk.injEq] at h
                    obtain ⟨tail, htail⟩ := List.isPrefixOf_iff_prefix.mp h7
                    subst h6
                    rw [← htail] at h ⊢
                    simp only [List.append_eq, List.cons_append, List.nil_append]
                    rw [show (['u', 'l', 'l'] ++ tail).drop 3 = tail from rfl] at h
                    rw [h.2]
                  · rw [if_neg h7] at h
                    simp at h
                · exfalso
                  rw [if_neg h6] at h
                  by_cases h7 : c = '-' ∨ c.isDigit
                  · rw [if_pos h7] at h
                    obtain ⟨lex, hl⟩ := parseNumber_number _ _ _ h
                    simp at hl
                  · rw [if_neg h7] at h
                    simp at h

/-- `unmarshalRouteDoc` succeeds only on `null` or on an object. -/
theorem unmarshalRouteDoc_some_shape (v : JValue) (d : RouteDocumentation)
    (h : unmarshalRouteDoc v = some d) : v = .null ∨ ∃ fs, v = .obj fs := by
  cases v with
  | null => exact Or.inl rfl
  | obj fs => exact Or.inr ⟨fs, rfl⟩
  | boolean b => simp [unmarshalRouteDoc] at h
  | number lex => simp [unmarshalRouteDoc] at h
  | str s => simp [unmarshalRouteDoc] at h
  | arr elems => simp [unmarshalRouteDoc] at h

/-- Core of the braceless-reply analysis: when the raw reply contains no
opening and no closing brace, the cleaned reply is the trimmed, fence-
stripped text itself, and parsing it fails — except when that text is the
JSON literal `null`, which `json.Unmarshal` accepts as a no-op, leaving
the zero-valued record. -/
theorem parseResponse_braceless (s : String) (h1 : lbrace ∉ s.data)
    (h2 : rbrace ∉ s.data) :
    (cleanMarkdownJSON s = "null" ∧ parseResponse s = some zeroRouteDoc) ∨
      parseResponse s = none := by
  have htsub : List.Sublist (goTrimSpace (stripFence s.data)) s.data :=
    (goTrimSpace_sublist _).trans (stripFence_sublist _)
  have hlb : lbrace ∉ goTrimSpace (stripFence s.data) := fun hm => h1 (htsub.subset hm)
  have hfnone : (goTrimSpace (stripFence s.data)).findIdx? (· == lbrace) = none := by
    rw [List.findIdx?_eq_none_iff]
    intro x hx
    by_cases hxe : x = lbrace
    · exact absurd (hxe ▸ hx) hlb
    · simp [hxe]
  have hclean : (cleanMarkdownJSON s).data = goTrimSpace (stripFence s.data) := by
    rw [cleanMarkdownJSON_data]
    rw [if_neg]
    rintro ⟨hne, -, -⟩
    rw [goIndexChar_eq_findIdx?, hfnone] at hne
    exact hne rfl
  by_cases hnull : goTrimSpace (stripFence s.data) = "null".data
  · left
    have hstr : cleanMarkdownJSON s = "null" := string_eq_of_data (by rw [hclean, hnull])
    refine ⟨hstr, ?_⟩
    unfold parseResponse
    rw [hstr]
    decide
  · right
    by_contra hcon
    obtain ⟨d, hd⟩ := Option.ne_none_iff_exists'.mp hcon
    unfold parseResponse jsonUnmarshalRouteDoc at hd
    rw [hclean] at hd
    cases hp : parseValue (jsonFuel (goTrimSpace (stripFence s.data)))
        (goTrimSpace (stripFence s.data)) with
    | none => rw [hp] at hd; simp at hd
    | some vr =>
      obtain ⟨v, rest⟩ := vr
      rw [hp] at hd
      dsimp only at hd
      cases hskip : skipJsonWs rest with
      | cons x xs => rw [hskip] at hd; simp at hd
      | nil =>
        rw [hskip] at hd
        rcases unmarshalRouteDoc_some_shape v d hd with hv | ⟨fs, hv⟩
        · subst hv
          have hshape := parseValue_null_shape _ _ _ hp
          rw [skipJsonWs_trimmed] at hshape
          have hws : ∀ x ∈ rest, jsonWs x = true := List.dropWhile_eq_nil_iff.mp hskip
          cases hrest : rest with
          | nil =>
            rw [hrest] at hshape
            exact hnull (hshape.trans (by decide))
          | cons x xs =>
            have hlastr : rest.getLast? = (goTrimSpace (stripFence s.data)).getLast? := by
              rw [hshape]
              simp [List.getLast?_cons_cons, List.getLast?_cons, hrest]
            obtain ⟨lc, hlc⟩ : ∃ lc, rest.getLast? = some lc := by
              rw [hrest]
              exact ⟨(x :: xs).getLast (by simp), List.getLast?_eq_getLast _ _⟩
            have hlcmem : lc ∈ rest := by
              have := List.mem_getLast?_eq_getLast (l := rest) (x := lc) (by rw [hlc]; rfl)
              obtain ⟨hne, heq⟩ := this
              exact heq ▸ List.getLast_mem hne
            have hlcws : goIsSpace lc = true :=
              jsonWs_imp_goIsSpace lc (hws lc hlcmem)
            have : goIsSpace lc = false :=
              goTrimSpace_getLast_not_space _ lc (by rw [← hlastr, hlc])
            rw [this] at hlcws
            cases hlcws
        · subst hv
          exact hlb (parseValue_obj_mem _ _ _ _ hp)

/-- Counterexample to C6 as stated: the reply `"null"` contains no opening
and no closing brace, yet parsing does NOT fail — `json.Unmarshal` accepts
the JSON literal `null` as a no-op on the target struct, so the parser
returns the zero-valued record instead of a `MalformedReply`. -/
theorem null_reply_parses_C6_cex :
    lbrace ∉ "null".data ∧ rbrace ∉ "null".data ∧
    parseResponse "null" = some zeroRouteDoc ∧ parseResponse "null" ≠ none := by
  refine ⟨by decide, by decide, by decide, by decide⟩

/-- C6 amended: for every reply text containing neither an opening nor a
closing brace, parsing fails with a `MalformedReply` (returns no record) —
unless the fence-stripped, trimmed text is exactly the JSON literal
`null`, which parses successfully to the zero-valued record; and a
per-route failure never prevents the remaining routes from being processed
and included: a route whose documentation call fails contributes nothing,
and the assembled document equals the one built without that route. -/
theorem braceless_reply_C6 (s : String) (f : APIRoute → Option RouteDocumentation)
    (pre suf : List APIRoute) (r : APIRoute)
    (h1 : lbrace ∉ s.data) (h2 : rbrace ∉ s.data) (h3 : f r = none) :
    ((cleanMarkdownJSON s = "null" ∧ parseResponse s = some zeroRouteDoc) ∨
      parseResponse s = none) ∧
    buildOpenAPISpec f (pre ++ r :: suf) = buildOpenAPISpec f (pre ++ suf) := by
  refine ⟨parseResponse_braceless s h1 h2, ?_⟩
  unfold buildOpenAPISpec
  rw [show pre ++ r :: suf = (pre ++ [r]) ++ suf by simp]
  rw [List.foldl_append, List.foldl_append, List.foldl_append]
  congr 1
  simp only [List.foldl_cons, List.foldl_nil]
  unfold assembleStep
  rw [h3]

/-- Witness for C6: the hypotheses are satisfiable at a concrete input. -/
theorem braceless_reply_C6_witness :
    ((cleanMarkdownJSON "hello" = "null" ∧
        parseResponse "hello" = some zeroRouteDoc) ∨
      parseResponse "hello" = none) ∧
    buildOpenAPISpec (fun _ => none) ([] ++ routeOfFile "p" "c" :: []) =
      buildOpenAPISpec (fun _ => none) ([] ++ []) :=
  braceless_reply_C6 "hello" (fun _ => none) [] [] (routeOfFile "p" "c")
    (by decide) (by decide) rfl
